import Mathlib

/-!
Verification of the Local-AI-Chat LLM gateway against its specification.

The definitions below are a shallow embedding of the Python sources:
* `LLMEndpoint` and its health operations embed
  `backend/app/services/llm_service.py` (class `LLMEndpoint`),
* `LLMService.selectEndpoint` embeds `LLMService._select_endpoint`,
* the context builder embeds `backend/app/services/context_service.py`,
* the stream adapters embed `LLMService.stream_response` and the
  normalization branch of `LLMService.generate_response`,
* `ConnectionManager` and the generation handler embed
  `backend/app/routes/websocket.py`.

Response times are modelled as rationals, JSON values by a small inductive
type, and the mutable dictionaries of the connection manager by association
lists with Python's insertion-order update semantics.
-/

namespace LocalAIChat

/-- Embedding of `LLMEndpoint.__init__` state: name, url, default model and
the mutable health fields (`is_healthy`, `response_times`, `error_count`). -/
structure LLMEndpoint where
  name : String
  url : String
  default_model : String
  is_healthy : Bool
  response_times : List ℚ
  error_count : Nat
deriving Repr, DecidableEq

/-- Fresh endpoint as built by `LLMEndpoint.__init__`: healthy, no samples,
zero errors. -/
def LLMEndpoint.init (name url default_model : String) : LLMEndpoint :=
  { name := name, url := url, default_model := default_model,
    is_healthy := true, response_times := [], error_count := 0 }

/-- Python's `l[-10:]`: the at most 10 most recent samples. -/
def lastTen (l : List ℚ) : List ℚ := l.drop (l.length - 10)

/-- Embedding of the `average_response_time` property: 0 with no samples,
otherwise the mean of `response_times[-10:]`. -/
def LLMEndpoint.average_response_time (e : LLMEndpoint) : ℚ :=
  if e.response_times = [] then 0
  else (lastTen e.response_times).sum / ((lastTen e.response_times).length : ℚ)

/-- Embedding of `record_response_time`: append the sample, then drop the
oldest one when the window grows past 100. -/
def LLMEndpoint.record_response_time (e : LLMEndpoint) (time : ℚ) : LLMEndpoint :=
  { e with response_times :=
      if 100 < (e.response_times ++ [time]).length then (e.response_times ++ [time]).drop 1
      else e.response_times ++ [time] }

/-- Embedding of `record_error`: increment `error_count`; once it reaches 3
the endpoint is marked unhealthy. -/
def LLMEndpoint.record_error (e : LLMEndpoint) : LLMEndpoint :=
  { e with error_count := e.error_count + 1,
           is_healthy := if 3 ≤ e.error_count + 1 then false else e.is_healthy }

/-- Embedding of `reset_health`: healthy again with a zeroed error count. -/
def LLMEndpoint.reset_health (e : LLMEndpoint) : LLMEndpoint :=
  { e with is_healthy := true, error_count := 0 }

/-- One health-affecting operation on an endpoint, as named by the spec:
a failed generation, a successful generation (with its elapsed time), or a
successful health probe. -/
inductive HealthOp where
  | recordError
  | recordResponseTime (t : ℚ)
  | resetHealth
deriving Repr, DecidableEq

/-- Apply one health operation to an endpoint. -/
def LLMEndpoint.applyOp (e : LLMEndpoint) : HealthOp → LLMEndpoint
  | .recordError => e.record_error
  | .recordResponseTime t => e.record_response_time t
  | .resetHealth => e.reset_health

/-- Apply a sequence of health operations, oldest first. -/
def LLMEndpoint.applyOps (e : LLMEndpoint) (ops : List HealthOp) : LLMEndpoint :=
  ops.foldl LLMEndpoint.applyOp e

/-- The spec's notion for claim C1: the number of consecutive failures
recorded since the last success or reset (a success or a reset restarts the
count at zero). -/
def consecutiveFailures (ops : List HealthOp) : Nat :=
  ops.foldl
    (fun n op =>
      match op with
      | .recordError => n + 1
      | .recordResponseTime _ => 0
      | .resetHealth => 0) 0

/-- Step function for the error counter the code actually keeps: a success
leaves it untouched, only a reset clears it. -/
def errorCountStep (n : Nat) : HealthOp → Nat
  | .recordError => n + 1
  | .recordResponseTime _ => n
  | .resetHealth => 0

/-- The number of failures recorded since the last `reset_health`
(successful generations do not clear it). -/
def errorsSinceReset (ops : List HealthOp) : Nat :=
  ops.foldl errorCountStep 0

lemma applyOp_error_count_healthy (e : LLMEndpoint) (n : Nat) (op : HealthOp)
    (h1 : e.error_count = n) (h2 : e.is_healthy = decide (n < 3)) :
    (e.applyOp op).error_count = errorCountStep n op ∧
      (e.applyOp op).is_healthy = decide (errorCountStep n op < 3) := by
  cases op with
  | recordError =>
      refine ⟨by simp [LLMEndpoint.applyOp, LLMEndpoint.record_error, h1, errorCountStep], ?_⟩
      simp only [LLMEndpoint.applyOp, LLMEndpoint.record_error, h1, h2, errorCountStep]
      by_cases h : 3 ≤ n + 1
      · simp [h, Nat.not_lt.mpr h]
      · have hn : n < 3 := by omega
        have hn1 : n + 1 < 3 := by omega
        simp [h, hn, hn1]
  | recordResponseTime t =>
      exact ⟨by simp [LLMEndpoint.applyOp, LLMEndpoint.record_response_time, h1, errorCountStep],
             by simp [LLMEndpoint.applyOp, LLMEndpoint.record_response_time, h2, errorCountStep]⟩
  | resetHealth =>
      exact ⟨by simp [LLMEndpoint.applyOp, LLMEndpoint.reset_health, errorCountStep],
             by simp [LLMEndpoint.applyOp, LLMEndpoint.reset_health, errorCountStep]⟩

lemma applyOps_error_count_healthy (ops : List HealthOp) (e : LLMEndpoint) (n : Nat)
    (h1 : e.error_count = n) (h2 : e.is_healthy = decide (n < 3)) :
    (e.applyOps ops).error_count = ops.foldl errorCountStep n ∧
      (e.applyOps ops).is_healthy = decide (ops.foldl errorCountStep n < 3) := by
  induction ops generalizing e n with
  | nil => exact ⟨h1, h2⟩
  | cons op rest ih =>
      have h := applyOp_error_count_healthy e n op h1 h2
      simpa [LLMEndpoint.applyOps, List.foldl] using ih (e.applyOp op) (errorCountStep n op) h.1 h.2

/-- Operation sequence used to refute claim C1: three failures, each pair
separated by a successful generation. -/
def interleavedFailures : List HealthOp :=
  [HealthOp.recordError, HealthOp.recordResponseTime 1, HealthOp.recordError,
   HealthOp.recordResponseTime 1, HealthOp.recordError]

/-- Claim C1 as stated is false at a concrete input: after the sequence
error, success, error, success, error only 1 consecutive failure has been
recorded since the last success, yet the endpoint reports unhealthy,
because `record_response_time` never clears `error_count`. -/
theorem C1_counterexample :
    ¬ ((((LLMEndpoint.init "svc" "http://host" "m").applyOps
          interleavedFailures).is_healthy = false)
        ↔ 3 ≤ consecutiveFailures interleavedFailures) := by
  decide

/-- Claim C1, amended to what the code does: for every sequence of health
operations on a fresh endpoint, `is_healthy` is false if and only if at
least 3 failures have been recorded since the last reset; successful
generations do not clear the error count, so three failures separated by
intervening successes do mark the endpoint unhealthy. -/
theorem C1_amended_health_iff (name url model : String) (ops : List HealthOp) :
    ((LLMEndpoint.init name url model).applyOps ops).is_healthy = false ↔
      3 ≤ errorsSinceReset ops := by
  have h := applyOps_error_count_healthy ops (LLMEndpoint.init name url model) 0
    (by simp [LLMEndpoint.init]) (by simp [LLMEndpoint.init])
  rw [h.2, errorsSinceReset]
  constructor
  · intro hfalse
    by_contra hlt
    simp [Nat.lt_of_not_le hlt] at hfalse
  · intro hle
    simp [Nat.not_lt.mpr hle]

/-- Record a list of samples, oldest first. -/
def LLMEndpoint.recordAll (e : LLMEndpoint) (ts : List ℚ) : LLMEndpoint :=
  ts.foldl LLMEndpoint.record_response_time e

lemma recordAll_response_times (ts : List ℚ) (e : LLMEndpoint)
    (h : e.response_times.length + ts.length ≤ 100) :
    (e.recordAll ts).response_times = e.response_times ++ ts := by
  induction ts generalizing e with
  | nil => simp [LLMEndpoint.recordAll]
  | cons t rest ih =>
      have hlen : ¬ 100 < (e.response_times ++ [t]).length := by
        simp only [List.length_append, List.length_cons, List.length_nil] at h ⊢
        omega
      have hstep : (e.record_response_time t).response_times = e.response_times ++ [t] := by
        simp only [LLMEndpoint.record_response_time]
        rw [if_neg hlen]
      have hrec : (e.record_response_time t).response_times.length + rest.length ≤ 100 := by
        rw [hstep]
        simp only [List.length_append, List.length_cons, List.length_nil] at h ⊢
        omega
      calc ((e.record_response_time t).recordAll rest).response_times
          = (e.record_response_time t).response_times ++ rest := ih _ hrec
        _ = e.response_times ++ t :: rest := by rw [hstep]; simp

lemma lastTen_length_le (l : List ℚ) : (lastTen l).length ≤ 10 := by
  simp only [lastTen, List.length_drop]
  omega

lemma lastTen_suffix (l : List ℚ) : lastTen l <:+ l := by
  simpa [lastTen] using List.drop_suffix (l.length - 10) l

/-- Claim C8: the average is 0 with no samples and otherwise the mean of a
suffix of at most 10 samples; recording eleven samples from a fresh
endpoint yields the same average as recording only the last ten of them;
and the sample window holds at most 100 samples, dropping the oldest one
first once full. -/
theorem C8_average_window :
    (∀ e : LLMEndpoint, e.response_times = [] → e.average_response_time = 0) ∧
    (∀ e : LLMEndpoint, e.response_times ≠ [] →
      e.average_response_time =
        (lastTen e.response_times).sum / ((lastTen e.response_times).length : ℚ) ∧
      (lastTen e.response_times).length ≤ 10 ∧ lastTen e.response_times <:+ e.response_times) ∧
    (∀ (name url model : String) (t : ℚ) (ts : List ℚ), ts.length = 10 →
      ((LLMEndpoint.init name url model).recordAll (t :: ts)).average_response_time =
        ((LLMEndpoint.init name url model).recordAll ts).average_response_time) ∧
    (∀ (e : LLMEndpoint) (t : ℚ), e.response_times.length ≤ 100 →
      (e.record_response_time t).response_times.length ≤ 100 ∧
      (e.response_times.length = 100 →
        (e.record_response_time t).response_times = e.response_times.tail ++ [t])) := by
  refine ⟨?_, ?_, ?_, ?_⟩
  · intro e h
    simp [LLMEndpoint.average_response_time, h]
  · intro e h
    exact ⟨by simp [LLMEndpoint.average_response_time, h], lastTen_length_le _, lastTen_suffix _⟩
  · intro name url model t ts hts
    have h1 : ((LLMEndpoint.init name url model).recordAll (t :: ts)).response_times = t :: ts := by
      have := recordAll_response_times (t :: ts) (LLMEndpoint.init name url model)
        (by simp [LLMEndpoint.init, hts])
      simpa [LLMEndpoint.init] using this
    have h2 : ((LLMEndpoint.init name url model).recordAll ts).response_times = ts := by
      have := recordAll_response_times ts (LLMEndpoint.init name url model)
        (by simp [LLMEndpoint.init, hts])
      simpa [LLMEndpoint.init] using this
    have hl1 : lastTen (t :: ts) = ts := by
      simp [lastTen, hts]
    have hl2 : lastTen ts = ts := by
      simp [lastTen, hts]
    have hne : ts ≠ [] := by
      intro hnil; rw [hnil] at hts; simp at hts
    simp [LLMEndpoint.average_response_time, h1, h2, hl1, hl2, hne]
  · intro e t h
    constructor
    · by_cases hfull : 100 < (e.response_times ++ [t]).length
      · simp only [LLMEndpoint.record_response_time]
        rw [if_pos hfull]
        simp only [List.length_drop, List.length_append, List.length_cons, List.length_nil]
        omega
      · simp only [LLMEndpoint.record_response_time]
        rw [if_neg hfull]
        simp only [List.length_append, List.length_cons, List.length_nil] at hfull ⊢
        omega
    · intro hfull
      have hgt : 100 < (e.response_times ++ [t]).length := by
        simp [hfull]
      simp only [LLMEndpoint.record_response_time]
      rw [if_pos hgt, List.drop_append_of_le_length (by omega), List.drop_one]

/-- Witness for C8 at concrete inputs: eleven samples 1..11 from a fresh
endpoint average the same as the ten samples 2..11 alone. -/
theorem C8_average_window_witness :
    ((LLMEndpoint.init "svc" "u" "m").recordAll
        [(1 : ℚ), 2, 3, 4, 5, 6, 7, 8, 9, 10, 11]).average_response_time =
      ((LLMEndpoint.init "svc" "u" "m").recordAll
        [(2 : ℚ), 3, 4, 5, 6, 7, 8, 9, 10, 11]).average_response_time :=
  C8_average_window.2.2.1 "svc" "u" "m" 1 [2, 3, 4, 5, 6, 7, 8, 9, 10, 11] (by decide)

/-- Python's `min(xs, key=...)` step: a strictly smaller key replaces the
current best, so ties keep the earlier element. -/
def minAvgStep (best x : LLMEndpoint) : LLMEndpoint :=
  if x.average_response_time < best.average_response_time then x else best

/-- Embedding of `min(endpoints, key=lambda ep: ep.average_response_time)`:
the first endpoint with the least average response time, `none` on an empty
list. -/
def minByAvg : List LLMEndpoint → Option LLMEndpoint
  | [] => none
  | e :: es => some (es.foldl minAvgStep e)

lemma foldl_minAvgStep_mem (es : List LLMEndpoint) (b : LLMEndpoint) :
    es.foldl minAvgStep b = b ∨ es.foldl minAvgStep b ∈ es := by
  induction es generalizing b with
  | nil => exact Or.inl rfl
  | cons x es ih =>
      rcases ih (minAvgStep b x) with h | h
      · rw [List.foldl_cons, h]
        unfold minAvgStep
        split
        · exact Or.inr (List.mem_cons_self _ _)
        · exact Or.inl rfl
      · exact Or.inr (List.mem_cons_of_mem _ h)

lemma foldl_minAvgStep_le (es : List LLMEndpoint) (b : LLMEndpoint) :
    (es.foldl minAvgStep b).average_response_time ≤ b.average_response_time ∧
      ∀ x ∈ es, (es.foldl minAvgStep b).average_response_time ≤ x.average_response_time := by
  induction es generalizing b with
  | nil => exact ⟨le_refl _, by simp⟩
  | cons x es ih =>
      obtain ⟨ih1, ih2⟩ := ih (minAvgStep b x)
      have hb : (minAvgStep b x).average_response_time ≤ b.average_response_time := by
        unfold minAvgStep; split
        · exact le_of_lt (by assumption)
        · exact le_refl _
      have hx : (minAvgStep b x).average_response_time ≤ x.average_response_time := by
        unfold minAvgStep; split
        · exact le_refl _
        · exact le_of_not_lt (by assumption)
      refine ⟨le_trans ih1 hb, ?_⟩
      intro y hy
      rcases List.mem_cons.mp hy with rfl | hy
      · exact le_trans ih1 hx
      · exact ih2 y hy

lemma minByAvg_mem {l : List LLMEndpoint} {e : LLMEndpoint} (h : minByAvg l = some e) :
    e ∈ l := by
  cases l with
  | nil => simp [minByAvg] at h
  | cons a es =>
      simp only [minByAvg, Option.some.injEq] at h
      rcases foldl_minAvgStep_mem es a with h' | h'
      · rw [← h, h']; exact List.mem_cons_self _ _
      · rw [← h]; exact List.mem_cons_of_mem _ h'

lemma minByAvg_le {l : List LLMEndpoint} {e : LLMEndpoint} (h : minByAvg l = some e) :
    ∀ x ∈ l, e.average_response_time ≤ x.average_response_time := by
  cases l with
  | nil => simp [minByAvg] at h
  | cons a es =>
      simp only [minByAvg, Option.some.injEq] at h
      intro x hx
      rcases List.mem_cons.mp hx with h' | hx
      · rw [← h, h']; exact (foldl_minAvgStep_le es a).1
      · rw [← h]; exact (foldl_minAvgStep_le es a).2 x hx

lemma minByAvg_eq_none_iff {l : List LLMEndpoint} : minByAvg l = none ↔ l = [] := by
  cases l <;> simp [minByAvg]

/-- Embedding of the `LLMService` fields the selector reads: the registry
and the configured default service name. -/
structure LLMServiceState where
  endpoints : List LLMEndpoint
  default_service_name : Option String
deriving Repr, DecidableEq

/-- Python truthiness of an optional string (`if preferred_service:`):
false for `None` and for the empty string. -/
def pythonTruthyStr : Option String → Bool
  | none => false
  | some s => s ≠ ""

/-- First loop of `_select_endpoint`: the first healthy endpoint named by
the preferred service, when one is given. -/
def prefCandidate (s : LLMServiceState) (preferred_service : Option String) :
    Option LLMEndpoint :=
  if pythonTruthyStr preferred_service then
    s.endpoints.find? (fun e => e.name == preferred_service.getD "" && e.is_healthy)
  else none

/-- Second loop of `_select_endpoint`: the first healthy endpoint named by
the configured default service. -/
def defaultCandidate (s : LLMServiceState) : Option LLMEndpoint :=
  if pythonTruthyStr s.default_service_name then
    s.endpoints.find? (fun e => e.name == s.default_service_name.getD "" && e.is_healthy)
  else none

/-- Embedding of `LLMService._select_endpoint`: preferred service first,
then the default service, then the healthy endpoint with the lowest
average response time; when no endpoint is healthy, reset health on all
endpoints and pick from the reset registry. The second component is the
registry after the call (changed only by the full reset). -/
def LLMServiceState.selectEndpoint (s : LLMServiceState)
    (preferred_service : Option String) : Option LLMEndpoint × List LLMEndpoint :=
  match prefCandidate s preferred_service with
  | some e => (some e, s.endpoints)
  | none =>
    match defaultCandidate s with
    | some e => (some e, s.endpoints)
    | none =>
      if (s.endpoints.filter (fun e => e.is_healthy)).isEmpty then
        (minByAvg (s.endpoints.map LLMEndpoint.reset_health),
         s.endpoints.map LLMEndpoint.reset_health)
      else
        (minByAvg (s.endpoints.filter (fun e => e.is_healthy)), s.endpoints)

lemma prefCandidate_healthy {s : LLMServiceState} {p : Option String} {e : LLMEndpoint}
    (h : prefCandidate s p = some e) : e.is_healthy = true := by
  unfold prefCandidate at h
  split at h
  · have := List.find?_some h
    simp only [Bool.and_eq_true, beq_iff_eq] at this
    exact this.2
  · exact absurd h (by simp)

lemma defaultCandidate_healthy {s : LLMServiceState} {e : LLMEndpoint}
    (h : defaultCandidate s = some e) : e.is_healthy = true := by
  unfold defaultCandidate at h
  split at h
  · have := List.find?_some h
    simp only [Bool.and_eq_true, beq_iff_eq] at this
    exact this.2
  · exact absurd h (by simp)

lemma candidate_none_of_nil {s : LLMServiceState} (hnil : s.endpoints = [])
    (p : Option String) : prefCandidate s p = none ∧ defaultCandidate s = none := by
  constructor
  · unfold prefCandidate; rw [hnil]; split <;> simp
  · unfold defaultCandidate; rw [hnil]; split <;> simp

lemma pythonTruthyStr_some {o : Option String} (h : pythonTruthyStr o = true) :
    ∃ p, o = some p ∧ p ≠ "" := by
  cases o with
  | none => simp [pythonTruthyStr] at h
  | some s => exact ⟨s, rfl, by simpa [pythonTruthyStr] using h⟩

lemma prefCandidate_eq_none {s : LLMServiceState} {pref : Option String}
    (h : ∀ p, pref = some p → p ≠ "" →
      ∀ e ∈ s.endpoints, ¬ (e.name = p ∧ e.is_healthy = true)) :
    prefCandidate s pref = none := by
  unfold prefCandidate
  by_cases htr : pythonTruthyStr pref = true
  · rw [if_pos htr]
    obtain ⟨p, rfl, hp⟩ := pythonTruthyStr_some htr
    apply List.find?_eq_none.mpr
    intro x hx
    have hno := h p rfl hp x hx
    simp only [Option.getD_some, Bool.and_eq_true, beq_iff_eq]
    exact hno
  · rw [if_neg htr]

lemma defaultCandidate_eq_none {s : LLMServiceState}
    (h : ∀ d, s.default_service_name = some d → d ≠ "" →
      ∀ e ∈ s.endpoints, ¬ (e.name = d ∧ e.is_healthy = true)) :
    defaultCandidate s = none := by
  unfold defaultCandidate
  by_cases htr : pythonTruthyStr s.default_service_name = true
  · rw [if_pos htr]
    obtain ⟨d, hd, hdne⟩ := pythonTruthyStr_some htr
    apply List.find?_eq_none.mpr
    intro x hx
    have hno := h d hd hdne x hx
    simp only [hd, Option.getD_some, Bool.and_eq_true, beq_iff_eq]
    exact hno
  · rw [if_neg htr]

lemma foldl_minAvgStep_first (es : List LLMEndpoint) (b : LLMEndpoint) :
    es.foldl minAvgStep b = b ∨
      ∃ l1 l2, es = l1 ++ (es.foldl minAvgStep b) :: l2 ∧
        (es.foldl minAvgStep b).average_response_time < b.average_response_time ∧
        ∀ x ∈ l1, (es.foldl minAvgStep b).average_response_time <
          x.average_response_time := by
  induction es generalizing b with
  | nil => exact Or.inl rfl
  | cons x es ih =>
      rw [List.foldl_cons]
      by_cases hx : x.average_response_time < b.average_response_time
      · have hb : minAvgStep b x = x := by simp [minAvgStep, hx]
        rw [hb]
        rcases ih x with h | ⟨l1, l2, heq, hlt, hall⟩
        · refine Or.inr ⟨[], es, by simp [h], by rw [h]; exact hx, by simp⟩
        · refine Or.inr ⟨x :: l1, l2, by rw [List.cons_append, ← heq],
            lt_trans hlt hx, ?_⟩
          intro y hy
          rcases List.mem_cons.mp hy with h1 | h1
          · rw [h1]; exact hlt
          · exact hall y h1
      · have hb : minAvgStep b x = b := by simp [minAvgStep, hx]
        rw [hb]
        rcases ih b with h | ⟨l1, l2, heq, hlt, hall⟩
        · exact Or.inl h
        · refine Or.inr ⟨x :: l1, l2, by rw [List.cons_append, ← heq], hlt, ?_⟩
          intro y hy
          rcases List.mem_cons.mp hy with h1 | h1
          · rw [h1]
            exact lt_of_lt_of_le hlt (le_of_not_lt hx)
          · exact hall y h1

lemma minByAvg_first_min {l : List LLMEndpoint} {e : LLMEndpoint}
    (h : minByAvg l = some e) :
    ∃ l1 l2, l = l1 ++ e :: l2 ∧
      ∀ x ∈ l1, e.average_response_time < x.average_response_time := by
  cases l with
  | nil => simp [minByAvg] at h
  | cons a es =>
      simp only [minByAvg, Option.some.injEq] at h
      rcases foldl_minAvgStep_first es a with h1 | ⟨l1, l2, heq, hlt, hall⟩
      · refine ⟨[], es, ?_, by simp⟩
        rw [List.nil_append, ← h, h1]
      · refine ⟨a :: l1, l2, ?_, ?_⟩
        · rw [List.cons_append, ← h, ← heq]
        · intro y hy
          rcases List.mem_cons.mp hy with h1 | h1
          · rw [h1, ← h]; exact hlt
          · rw [← h]; exact hall y h1

/-- Claim C2: the selector returns the preferred endpoint when one is
named and healthy; otherwise the configured default endpoint when it is
named and healthy; otherwise the first healthy endpoint of minimal average
latency in registry order (every healthy endpoint listed earlier is
strictly slower, so ties break by iteration order); when every endpoint is
unhealthy it resets them all and picks the first minimum of the reset
registry; it returns `none` exactly on an empty registry and never returns
an unhealthy endpoint. -/
theorem C2_select_endpoint (s : LLMServiceState) (pref : Option String) :
    ((s.selectEndpoint pref).1 = none ↔ s.endpoints = []) ∧
    (∀ e, (s.selectEndpoint pref).1 = some e → e.is_healthy = true) ∧
    (∀ p, pref = some p → p ≠ "" →
      (∃ e ∈ s.endpoints, e.name = p ∧ e.is_healthy = true) →
      ∃ e, (s.selectEndpoint pref).1 = some e ∧ e.name = p ∧ e.is_healthy = true) ∧
    ((∀ p, pref = some p → p ≠ "" →
        ∀ e ∈ s.endpoints, ¬ (e.name = p ∧ e.is_healthy = true)) →
      ∀ d, s.default_service_name = some d → d ≠ "" →
      (∃ e ∈ s.endpoints, e.name = d ∧ e.is_healthy = true) →
      ∃ e, (s.selectEndpoint pref).1 = some e ∧ e.name = d ∧ e.is_healthy = true) ∧
    ((∀ p, pref = some p → p ≠ "" →
        ∀ e ∈ s.endpoints, ¬ (e.name = p ∧ e.is_healthy = true)) →
      (∀ d, s.default_service_name = some d → d ≠ "" →
        ∀ e ∈ s.endpoints, ¬ (e.name = d ∧ e.is_healthy = true)) →
      (∃ e ∈ s.endpoints, e.is_healthy = true) →
      ∃ e l1 l2, (s.selectEndpoint pref).1 = some e ∧ e ∈ s.endpoints ∧
        e.is_healthy = true ∧
        s.endpoints.filter (fun x => x.is_healthy) = l1 ++ e :: l2 ∧
        (∀ x ∈ l1, e.average_response_time < x.average_response_time) ∧
        (∀ x ∈ s.endpoints, x.is_healthy = true →
          e.average_response_time ≤ x.average_response_time)) ∧
    ((∀ e ∈ s.endpoints, e.is_healthy = false) → s.endpoints ≠ [] →
      (s.selectEndpoint pref).2 = s.endpoints.map LLMEndpoint.reset_health ∧
      (∀ e ∈ (s.selectEndpoint pref).2, e.is_healthy = true) ∧
      (s.selectEndpoint pref).1 = minByAvg (s.endpoints.map LLMEndpoint.reset_health) ∧
      (∃ e l1 l2, (s.selectEndpoint pref).1 = some e ∧
        s.endpoints.map LLMEndpoint.reset_health = l1 ++ e :: l2 ∧
        (∀ x ∈ l1, e.average_response_time < x.average_response_time) ∧
        (∀ x ∈ s.endpoints.map LLMEndpoint.reset_health,
          e.average_response_time ≤ x.average_response_time))) := by
  refine ⟨?_, ?_, ?_, ?_, ?_, ?_⟩
  · constructor
    · intro hnone
      rcases hp : prefCandidate s pref with _ | e
      · rcases hd : defaultCandidate s with _ | e
        · by_cases hempty : (s.endpoints.filter (fun e => e.is_healthy)).isEmpty
          · have h1 : (s.selectEndpoint pref).1 =
                minByAvg (s.endpoints.map LLMEndpoint.reset_health) := by
              simp [LLMServiceState.selectEndpoint, hp, hd, hempty]
            rw [h1] at hnone
            have := minByAvg_eq_none_iff.mp hnone
            exact List.map_eq_nil_iff.mp this
          · have h1 : (s.selectEndpoint pref).1 =
                minByAvg (s.endpoints.filter (fun e => e.is_healthy)) := by
              simp [LLMServiceState.selectEndpoint, hp, hd, hempty]
            rw [h1] at hnone
            have := minByAvg_eq_none_iff.mp hnone
            rw [this] at hempty
            simp at hempty
        · have h1 : (s.selectEndpoint pref).1 = some e := by
            simp [LLMServiceState.selectEndpoint, hp, hd]
          rw [h1] at hnone; exact absurd hnone (by simp)
      · have h1 : (s.selectEndpoint pref).1 = some e := by
          simp [LLMServiceState.selectEndpoint, hp]
        rw [h1] at hnone; exact absurd hnone (by simp)
    · intro hnil
      obtain ⟨hp, hd⟩ := candidate_none_of_nil hnil pref
      simp [LLMServiceState.selectEndpoint, hp, hd, hnil, minByAvg]
  · intro e he
    rcases hp : prefCandidate s pref with _ | e1
    · rcases hd : defaultCandidate s with _ | e1
      · by_cases hempty : (s.endpoints.filter (fun e => e.is_healthy)).isEmpty
        · have h1 : (s.selectEndpoint pref).1 =
              minByAvg (s.endpoints.map LLMEndpoint.reset_health) := by
            simp [LLMServiceState.selectEndpoint, hp, hd, hempty]
          rw [h1] at he
          have hmem := minByAvg_mem he
          obtain ⟨x, _, rfl⟩ := List.mem_map.mp hmem
          simp [LLMEndpoint.reset_health]
        · have h1 : (s.selectEndpoint pref).1 =
              minByAvg (s.endpoints.filter (fun e => e.is_healthy)) := by
            simp [LLMServiceState.selectEndpoint, hp, hd, hempty]
          rw [h1] at he
          have hmem := minByAvg_mem he
          exact (List.mem_filter.mp hmem).2
      · have h1 : (s.selectEndpoint pref).1 = some e1 := by
          simp [LLMServiceState.selectEndpoint, hp, hd]
        rw [h1] at he
        cases he
        exact defaultCandidate_healthy hd
    · have h1 : (s.selectEndpoint pref).1 = some e1 := by
        simp [LLMServiceState.selectEndpoint, hp]
      rw [h1] at he
      cases he
      exact prefCandidate_healthy hp
  · rintro p rfl hne ⟨x, hx, hname, hhealthy⟩
    have htruthy : pythonTruthyStr (some p) = true := by
      simp [pythonTruthyStr, hne]
    have hex : ∃ y ∈ s.endpoints, (fun e => e.name == (some p).getD "" && e.is_healthy) y := by
      exact ⟨x, hx, by simp [hname, hhealthy]⟩
    have hsome : (s.endpoints.find?
        (fun e => e.name == (some p).getD "" && e.is_healthy)).isSome := by
      rw [List.find?_isSome]; exact hex
    obtain ⟨e, hfind⟩ := Option.isSome_iff_exists.mp hsome
    have hp : prefCandidate s (some p) = some e := by
      unfold prefCandidate; rw [htruthy]; simpa using hfind
    have hprop := List.find?_some hfind
    simp only [Option.getD_some, Bool.and_eq_true, beq_iff_eq] at hprop
    refine ⟨e, ?_, hprop.1, hprop.2⟩
    simp [LLMServiceState.selectEndpoint, hp]
  · intro hnopref d hd hdne ⟨x, hx, hname, hhealthy⟩
    have hp : prefCandidate s pref = none := prefCandidate_eq_none hnopref
    have htruthy : pythonTruthyStr s.default_service_name = true := by
      rw [hd]; simp [pythonTruthyStr, hdne]
    have hsome : (s.endpoints.find?
        (fun e => e.name == s.default_service_name.getD "" && e.is_healthy)).isSome := by
      rw [List.find?_isSome]
      exact ⟨x, hx, by simp [hd, hname, hhealthy]⟩
    obtain ⟨e, hfind⟩ := Option.isSome_iff_exists.mp hsome
    have hdc : defaultCandidate s = some e := by
      unfold defaultCandidate; rw [if_pos htruthy]; exact hfind
    have hprop := List.find?_some hfind
    simp only [hd, Option.getD_some, Bool.and_eq_true, beq_iff_eq] at hprop
    refine ⟨e, ?_, hprop.1, hprop.2⟩
    simp [LLMServiceState.selectEndpoint, hp, hdc]
  · intro hnopref hnodef ⟨x, hx, hhealthy⟩
    have hp : prefCandidate s pref = none := prefCandidate_eq_none hnopref
    have hd : defaultCandidate s = none := defaultCandidate_eq_none hnodef
    have hxf : x ∈ s.endpoints.filter (fun e => e.is_healthy) :=
      List.mem_filter.mpr ⟨hx, by simp [hhealthy]⟩
    have hempty : (s.endpoints.filter (fun e => e.is_healthy)).isEmpty = false := by
      cases hfil : s.endpoints.filter (fun e => e.is_healthy) with
      | nil => rw [hfil] at hxf; simp at hxf
      | cons hd2 tl => rfl
    have h1 : (s.selectEndpoint pref).1 =
        minByAvg (s.endpoints.filter (fun e => e.is_healthy)) := by
      simp [LLMServiceState.selectEndpoint, hp, hd, hempty]
    rcases hmin : minByAvg (s.endpoints.filter (fun e => e.is_healthy)) with _ | e
    · have := minByAvg_eq_none_iff.mp hmin
      rw [this] at hxf; simp at hxf
    · obtain ⟨l1, l2, hsplit, hstrict⟩ := minByAvg_first_min hmin
      have hmf := List.mem_filter.mp (minByAvg_mem hmin)
      refine ⟨e, l1, l2, by rw [h1, hmin], hmf.1, by simpa using hmf.2,
        hsplit, hstrict, ?_⟩
      intro y hy hyh
      exact minByAvg_le hmin y (List.mem_filter.mpr ⟨hy, by simp [hyh]⟩)
  · intro hall hne
    have hp : prefCandidate s pref = none := by
      unfold prefCandidate
      split
      · exact List.find?_eq_none.mpr (fun x hx => by simp [hall x hx])
      · rfl
    have hd : defaultCandidate s = none := by
      unfold defaultCandidate
      split
      · exact List.find?_eq_none.mpr (fun x hx => by simp [hall x hx])
      · rfl
    have hfil : s.endpoints.filter (fun e => e.is_healthy) = [] :=
      List.filter_eq_nil_iff.mpr (fun x hx => by simp [hall x hx])
    have hempty : (s.endpoints.filter (fun e => e.is_healthy)).isEmpty = true := by
      rw [hfil]; rfl
    have h1 : s.selectEndpoint pref =
        (minByAvg (s.endpoints.map LLMEndpoint.reset_health),
         s.endpoints.map LLMEndpoint.reset_health) := by
      simp [LLMServiceState.selectEndpoint, hp, hd, hempty]
    refine ⟨by rw [h1], ?_, by rw [h1], ?_⟩
    · intro e he
      rw [h1] at he
      obtain ⟨x, _, rfl⟩ := List.mem_map.mp he
      simp [LLMEndpoint.reset_health]
    · rcases hmin : minByAvg (s.endpoints.map LLMEndpoint.reset_health) with _ | e
      · have := minByAvg_eq_none_iff.mp hmin
        exact absurd (List.map_eq_nil_iff.mp this) hne
      · obtain ⟨l1, l2, hsplit, hstrict⟩ := minByAvg_first_min hmin
        refine ⟨e, l1, l2, by rw [h1]; exact hmin, hsplit, hstrict, ?_⟩
        intro y hy
        exact minByAvg_le hmin y hy

/-- Witness for C2 at a concrete input: a registry of two unhealthy
endpoints and no default name; selection resets both endpoints. -/
theorem C2_select_endpoint_witness :
    (LLMServiceState.selectEndpoint
        ⟨[{ name := "a", url := "u1", default_model := "m1", is_healthy := false,
            response_times := [3], error_count := 3 },
          { name := "b", url := "u2", default_model := "m2", is_healthy := false,
            response_times := [1], error_count := 4 }], none⟩ none).2 =
      [{ name := "a", url := "u1", default_model := "m1", is_healthy := true,
         response_times := [3], error_count := 0 },
       { name := "b", url := "u2", default_model := "m2", is_healthy := true,
         response_times := [1], error_count := 0 }] := by
  have h := (C2_select_endpoint
    ⟨[{ name := "a", url := "u1", default_model := "m1", is_healthy := false,
        response_times := [3], error_count := 3 },
      { name := "b", url := "u2", default_model := "m2", is_healthy := false,
        response_times := [1], error_count := 4 }], none⟩ none).2.2.2.2.2
    (by decide) (by decide)
  rw [h.1]
  decide

/-- One entry of the LLM-facing context: a role/content pair as produced by
`build_messages_context`. -/
structure ChatMessage where
  role : String
  content : String
deriving Repr, DecidableEq

/-- Embedding of `ContextService.estimate_tokens`: one token per four
characters, integer division. -/
def estimate_tokens (text : String) : Nat := text.length / 4

/-- Token estimate of one context entry. -/
def msgTokens (m : ChatMessage) : Nat := estimate_tokens m.content

/-- Total token estimate of a context (the sums taken in
`build_messages_context` and `_compress_context`). -/
def contextTokens (l : List ChatMessage) : Nat := (l.map msgTokens).sum

/-- Embedding of `ContextService._create_summary`: the current code always
returns the fixed placeholder text. -/
def createSummary (_messages : List ChatMessage) : Option String :=
  some "Conversation summary placeholder"

def summaryMarker : String := "Previous conversation summary: "

/-- The compression loop of `_compress_context`, running over the reversed
message list: keep taking messages while the running total stays within the
budget, stop at the first message that would overflow. -/
def takeWhileFits (budget : Nat) : Nat → List ChatMessage → List ChatMessage
  | _, [] => []
  | used, m :: rest =>
    if used + msgTokens m ≤ budget then
      m :: takeWhileFits budget (used + msgTokens m) rest
    else []

/-- The `recent_messages` list of `_compress_context`: walk the messages
from most recent to oldest, greedily keeping what fits, and return the kept
messages in chronological order. -/
def keptRecent (budget tokens_used : Nat) (msgs : List ChatMessage) : List ChatMessage :=
  (takeWhileFits budget tokens_used msgs.reverse).reverse

/-- Embedding of the first branch of `_compress_context`: detach a leading
system message when there is one. -/
def detachSystem : List ChatMessage → Option ChatMessage × List ChatMessage
  | [] => (none, [])
  | m :: rest => if m.role = "system" then (some m, rest) else (none, m :: rest)

/-- Embedding of the summarization branch of `_compress_context`: one
synthesized system entry when messages were excluded, more than 4 of them,
the llm service collaborator is present and the summary is truthy. -/
def summaryEntries (llm_service : Bool) (msgs recent : List ChatMessage) :
    List ChatMessage :=
  if recent.length < msgs.length then
    if llm_service = true ∧ 4 < (msgs.take (msgs.length - recent.length)).length then
      match createSummary (msgs.take (msgs.length - recent.length)) with
      | some summary =>
          if summary ≠ "" then [⟨"system", summaryMarker ++ summary⟩] else []
      | none => []
    else []
  else []

/-- Embedding of `ContextService._compress_context`: keep a leading system
message, keep the most recent messages that fit the budget (the system
tokens counted up front), and possibly synthesize one summary entry in
between. -/
def compressContext (llm_service : Bool) (messages : List ChatMessage)
    (max_tokens : Nat) : List ChatMessage :=
  let sys := (detachSystem messages).1
  let msgs := (detachSystem messages).2
  let tokens_used := match sys with
    | some m => estimate_tokens m.content
    | none => 0
  let recent := keptRecent max_tokens tokens_used msgs
  (match sys with | some m => [m] | none => []) ++
    summaryEntries llm_service msgs recent ++ recent

/-- The leading system entry of `build_messages_context`: present exactly
when the system prompt is truthy. -/
def systemEntries : Option String → List ChatMessage
  | some s => if s ≠ "" then [⟨"system", s⟩] else []
  | none => []

/-- Python's `max_tokens or self.max_tokens`: `None` and 0 both fall back
to the default 4000. -/
def effectiveBudget : Option Nat → Nat
  | some n => if n = 0 then 4000 else n
  | none => 4000

/-- Embedding of `ContextService.build_messages_context`: prepend the
system prompt, and compress only when the total estimate exceeds the
budget. -/
def buildMessagesContext (llm_service : Bool) (messages : List ChatMessage)
    (system_prompt : Option String) (max_tokens : Option Nat) : List ChatMessage :=
  if effectiveBudget max_tokens < contextTokens (systemEntries system_prompt ++ messages) then
    compressContext llm_service (systemEntries system_prompt ++ messages)
      (effectiveBudget max_tokens)
  else systemEntries system_prompt ++ messages

lemma contextTokens_nil : contextTokens [] = 0 := rfl

lemma contextTokens_cons (m : ChatMessage) (l : List ChatMessage) :
    contextTokens (m :: l) = msgTokens m + contextTokens l := by
  simp [contextTokens]

lemma contextTokens_append (l1 l2 : List ChatMessage) :
    contextTokens (l1 ++ l2) = contextTokens l1 + contextTokens l2 := by
  simp [contextTokens]

lemma contextTokens_reverse (l : List ChatMessage) :
    contextTokens l.reverse = contextTokens l := by
  simp [contextTokens, List.sum_reverse]

lemma takeWhileFits_isPre (budget : Nat) :
    ∀ (used : Nat) (r : List ChatMessage), takeWhileFits budget used r <+: r := by
  intro used r
  induction r generalizing used with
  | nil => exact List.nil_prefix
  | cons m rest ih =>
      simp only [takeWhileFits]
      split
      · obtain ⟨t, ht⟩ := ih (used + msgTokens m)
        exact ⟨t, by rw [List.cons_append, ht]⟩
      · exact List.nil_prefix

lemma takeWhileFits_sum (budget : Nat) :
    ∀ (used : Nat) (r : List ChatMessage),
      takeWhileFits budget used r = [] ∨
        used + contextTokens (takeWhileFits budget used r) ≤ budget := by
  intro used r
  induction r generalizing used with
  | nil => exact Or.inl rfl
  | cons m rest ih =>
      simp only [takeWhileFits]
      split
      · rcases ih (used + msgTokens m) with h | h
        · refine Or.inr ?_
          rw [h, contextTokens_cons, contextTokens_nil]
          omega
        · refine Or.inr ?_
          rw [contextTokens_cons]
          omega
      · exact Or.inl rfl

lemma takeWhileFits_longest (budget : Nat) :
    ∀ (used : Nat) (r p : List ChatMessage), p <+: r →
      used + contextTokens p ≤ budget →
      p.length ≤ (takeWhileFits budget used r).length := by
  intro used r
  induction r generalizing used with
  | nil =>
      intro p hp _
      rw [List.prefix_nil.mp hp]
      exact Nat.zero_le _
  | cons m rest ih =>
      intro p hp hfit
      cases p with
      | nil => exact Nat.zero_le _
      | cons a q =>
          obtain ⟨ha, hq⟩ := List.cons_prefix_cons.mp hp
          rw [contextTokens_cons] at hfit
          have hm : used + msgTokens m ≤ budget := by
            rw [← ha]; omega
          have hfit2 : used + msgTokens m + contextTokens q ≤ budget := by
            rw [← ha]; omega
          simp only [takeWhileFits, if_pos hm, List.length_cons]
          have := ih (used + msgTokens m) q hq hfit2
          omega

lemma takeWhileFits_mem_le (budget : Nat) :
    ∀ (used : Nat) (r : List ChatMessage) (m : ChatMessage),
      m ∈ takeWhileFits budget used r → used + msgTokens m ≤ budget := by
  intro used r
  induction r generalizing used with
  | nil => intro m h; simp [takeWhileFits] at h
  | cons a rest ih =>
      intro m h
      simp only [takeWhileFits] at h
      split at h
      · rcases List.mem_cons.mp h with h1 | h1
        · subst h1; assumption
        · have := ih (used + msgTokens a) m h1
          omega
      · simp at h

lemma keptRecent_suffix (budget used : Nat) (msgs : List ChatMessage) :
    keptRecent budget used msgs <:+ msgs := by
  obtain ⟨t, ht⟩ := takeWhileFits_isPre budget used msgs.reverse
  refine ⟨t.reverse, ?_⟩
  have : msgs.reverse.reverse = (takeWhileFits budget used msgs.reverse ++ t).reverse := by
    rw [ht]
  simpa [keptRecent] using this.symm

lemma keptRecent_fits (budget used : Nat) (msgs : List ChatMessage) :
    keptRecent budget used msgs = [] ∨
      used + contextTokens (keptRecent budget used msgs) ≤ budget := by
  rcases takeWhileFits_sum budget used msgs.reverse with h | h
  · exact Or.inl (by simp [keptRecent, h])
  · exact Or.inr (by simpa [keptRecent, contextTokens_reverse] using h)

lemma keptRecent_longest (budget used : Nat) (msgs s : List ChatMessage)
    (hs : s <:+ msgs) (hfit : used + contextTokens s ≤ budget) :
    s.length ≤ (keptRecent budget used msgs).length := by
  obtain ⟨t, ht⟩ := hs
  have hpre : s.reverse <+: msgs.reverse := ⟨t.reverse, by rw [← ht]; simp⟩
  have := takeWhileFits_longest budget used msgs.reverse s.reverse hpre
    (by rwa [contextTokens_reverse])
  simpa [keptRecent] using this

lemma keptRecent_mem_le (budget used : Nat) (msgs : List ChatMessage)
    (m : ChatMessage) (h : m ∈ keptRecent budget used msgs) :
    used + msgTokens m ≤ budget := by
  exact takeWhileFits_mem_le budget used msgs.reverse m (by simpa [keptRecent] using h)

lemma keptRecent_length_le (budget used : Nat) (msgs : List ChatMessage) :
    (keptRecent budget used msgs).length ≤ msgs.length :=
  (keptRecent_suffix budget used msgs).length_le

lemma detachSystem_cons_system (m : ChatMessage) (rest : List ChatMessage)
    (h : m.role = "system") : detachSystem (m :: rest) = (some m, rest) := by
  simp [detachSystem, h]

lemma detachSystem_no_system (msgs : List ChatMessage)
    (h : ∀ m ∈ msgs, m.role ≠ "system") : detachSystem msgs = (none, msgs) := by
  cases msgs with
  | nil => rfl
  | cons m rest =>
      have := h m (List.mem_cons_self m rest)
      simp [detachSystem, this]

lemma compress_with_system (llm : Bool) (m : ChatMessage) (turns : List ChatMessage)
    (budget : Nat) (hm : m.role = "system") :
    compressContext llm (m :: turns) budget =
      [m] ++ summaryEntries llm turns (keptRecent budget (msgTokens m) turns) ++
        keptRecent budget (msgTokens m) turns := by
  simp only [compressContext, detachSystem_cons_system m turns hm]
  rfl

lemma compress_no_system (llm : Bool) (turns : List ChatMessage) (budget : Nat)
    (h : ∀ m ∈ turns, m.role ≠ "system") :
    compressContext llm turns budget =
      summaryEntries llm turns (keptRecent budget 0 turns) ++
        keptRecent budget 0 turns := by
  simp only [compressContext, detachSystem_no_system turns h]
  rfl

lemma systemEntries_shape (sp : Option String) :
    systemEntries sp = [] ∨
      ∃ m : ChatMessage, m.role = "system" ∧ systemEntries sp = [m] := by
  cases sp with
  | none => exact Or.inl rfl
  | some s =>
      by_cases h : s = ""
      · exact Or.inl (by simp [systemEntries, h])
      · exact Or.inr ⟨⟨"system", s⟩, rfl, by simp [systemEntries, h]⟩

lemma compress_systemEntries (llm : Bool) (sp : Option String)
    (turns : List ChatMessage) (budget : Nat)
    (hroles : ∀ m ∈ turns, m.role ≠ "system") :
    compressContext llm (systemEntries sp ++ turns) budget =
      systemEntries sp ++
        summaryEntries llm turns
          (keptRecent budget (contextTokens (systemEntries sp)) turns) ++
        keptRecent budget (contextTokens (systemEntries sp)) turns := by
  rcases systemEntries_shape sp with h | ⟨m, hm, h⟩
  · rw [h, List.nil_append, List.nil_append,
      compress_no_system llm turns budget hroles, contextTokens_nil]
  · rw [h, List.singleton_append, compress_with_system llm m turns budget hm]
    have : contextTokens [m] = msgTokens m := by
      simp [contextTokens]
    rw [this]

lemma summaryEntries_iff (llm : Bool) (msgs recent : List ChatMessage)
    (hk : recent.length ≤ msgs.length) :
    summaryEntries llm msgs recent =
      if llm = true ∧ 4 < msgs.length - recent.length then
        [⟨"system", summaryMarker ++ "Conversation summary placeholder"⟩]
      else [] := by
  have htake : (msgs.take (msgs.length - recent.length)).length =
      msgs.length - recent.length := by
    rw [List.length_take]
    omega
  unfold summaryEntries
  by_cases hcond : llm = true ∧ 4 < msgs.length - recent.length
  · have hlt : recent.length < msgs.length := by omega
    rw [if_pos hlt, if_pos (by rw [htake]; exact hcond), if_pos hcond]
    simp [createSummary]
  · rw [if_neg hcond]
    by_cases hlt : recent.length < msgs.length
    · rw [if_pos hlt, if_neg (by rw [htake]; exact hcond)]
    · rw [if_neg hlt]

/-- Claim C3: when the estimated total of system prompt plus turns exceeds
the budget, the built context is the original system entry, then the
summary entry exactly when more than 4 turns were excluded and the
summarization collaborator is present, then the kept turn suffix — which
is precisely the longest trailing run of turns whose cumulative estimate,
with the system tokens counted up front, stays within the budget. -/
theorem C3_compression_structure (llm : Bool) (turns : List ChatMessage)
    (sp : Option String) (mt : Option Nat)
    (hroles : ∀ m ∈ turns, m.role ≠ "system")
    (hover : effectiveBudget mt < contextTokens (systemEntries sp ++ turns)) :
    buildMessagesContext llm turns sp mt =
      systemEntries sp ++
        summaryEntries llm turns
          (keptRecent (effectiveBudget mt) (contextTokens (systemEntries sp)) turns) ++
        keptRecent (effectiveBudget mt) (contextTokens (systemEntries sp)) turns ∧
    keptRecent (effectiveBudget mt) (contextTokens (systemEntries sp)) turns <:+ turns ∧
    (keptRecent (effectiveBudget mt) (contextTokens (systemEntries sp)) turns = [] ∨
      contextTokens (systemEntries sp) +
        contextTokens (keptRecent (effectiveBudget mt)
          (contextTokens (systemEntries sp)) turns) ≤ effectiveBudget mt) ∧
    (∀ s, s <:+ turns →
      contextTokens (systemEntries sp) + contextTokens s ≤ effectiveBudget mt →
      s.length ≤ (keptRecent (effectiveBudget mt)
        (contextTokens (systemEntries sp)) turns).length) ∧
    summaryEntries llm turns
        (keptRecent (effectiveBudget mt) (contextTokens (systemEntries sp)) turns) =
      (if llm = true ∧
          4 < turns.length - (keptRecent (effectiveBudget mt)
            (contextTokens (systemEntries sp)) turns).length then
        [⟨"system", summaryMarker ++ "Conversation summary placeholder"⟩]
      else []) := by
  refine ⟨?_, keptRecent_suffix _ _ _, keptRecent_fits _ _ _,
    fun s hs hfit => keptRecent_longest _ _ _ s hs hfit,
    summaryEntries_iff llm turns _ (keptRecent_length_le _ _ _)⟩
  unfold buildMessagesContext
  rw [if_pos hover]
  exact compress_systemEntries llm sp turns (effectiveBudget mt) hroles

/-- Witness for C3 at a concrete input: a 4-token system prompt, seven
3-token turns and a budget of 10; the last two turns are kept, five are
excluded, and one summary entry is synthesized. -/
theorem C3_compression_structure_witness :
    buildMessagesContext true
        [⟨"user", "aaaaaaaaaaaa"⟩, ⟨"assistant", "bbbbbbbbbbbb"⟩,
         ⟨"user", "cccccccccccc"⟩, ⟨"assistant", "dddddddddddd"⟩,
         ⟨"user", "eeeeeeeeeeee"⟩, ⟨"assistant", "ffffffffffff"⟩,
         ⟨"user", "gggggggggggg"⟩]
        (some "You are helpful.") (some 10) =
      systemEntries (some "You are helpful.") ++
        summaryEntries true
          [⟨"user", "aaaaaaaaaaaa"⟩, ⟨"assistant", "bbbbbbbbbbbb"⟩,
           ⟨"user", "cccccccccccc"⟩, ⟨"assistant", "dddddddddddd"⟩,
           ⟨"user", "eeeeeeeeeeee"⟩, ⟨"assistant", "ffffffffffff"⟩,
           ⟨"user", "gggggggggggg"⟩]
          (keptRecent 10 4
            [⟨"user", "aaaaaaaaaaaa"⟩, ⟨"assistant", "bbbbbbbbbbbb"⟩,
             ⟨"user", "cccccccccccc"⟩, ⟨"assistant", "dddddddddddd"⟩,
             ⟨"user", "eeeeeeeeeeee"⟩, ⟨"assistant", "ffffffffffff"⟩,
             ⟨"user", "gggggggggggg"⟩]) ++
        keptRecent 10 4
          [⟨"user", "aaaaaaaaaaaa"⟩, ⟨"assistant", "bbbbbbbbbbbb"⟩,
           ⟨"user", "cccccccccccc"⟩, ⟨"assistant", "dddddddddddd"⟩,
           ⟨"user", "eeeeeeeeeeee"⟩, ⟨"assistant", "ffffffffffff"⟩,
           ⟨"user", "gggggggggggg"⟩] := by
  have h := (C3_compression_structure true
    [⟨"user", "aaaaaaaaaaaa"⟩, ⟨"assistant", "bbbbbbbbbbbb"⟩,
     ⟨"user", "cccccccccccc"⟩, ⟨"assistant", "dddddddddddd"⟩,
     ⟨"user", "eeeeeeeeeeee"⟩, ⟨"assistant", "ffffffffffff"⟩,
     ⟨"user", "gggggggggggg"⟩]
    (some "You are helpful.") (some 10) (by decide) (by decide)).1
  have hsys : contextTokens (systemEntries (some "You are helpful.")) = 4 := by decide
  rw [hsys] at h
  exact h

/-- A single 25-character (6-token) turn with a budget of 5. -/
def oversizedTurn : ChatMessage := ⟨"user", "0123456789012345678901234"⟩

/-- Claim C4 as stated is false at a concrete input: a single turn whose
estimate (6 tokens) alone exceeds the budget (5) is not included in the
built context — the compression loop drops it, leaving an empty context,
rather than including it in full. -/
theorem C4_counterexample :
    5 < estimate_tokens oversizedTurn.content ∧
    oversizedTurn ∉ buildMessagesContext true [oversizedTurn] none (some 5) ∧
    buildMessagesContext true [oversizedTurn] none (some 5) = [] := by
  refine ⟨by decide, ?_, by decide⟩
  decide

lemma summaryEntries_role (llm : Bool) (msgs recent : List ChatMessage)
    (m : ChatMessage) (h : m ∈ summaryEntries llm msgs recent) :
    m.role = "system" := by
  unfold summaryEntries at h
  split at h
  · split at h
    · simp only [createSummary] at h
      split at h
      · rcases List.mem_singleton.mp h with rfl
        rfl
      · simp at h
    · simp at h
  · simp at h

lemma systemEntries_role (sp : Option String) (m : ChatMessage)
    (h : m ∈ systemEntries sp) : m.role = "system" := by
  rcases systemEntries_shape sp with hs | ⟨x, hx, hs⟩
  · rw [hs] at h; simp at h
  · rw [hs] at h
    rcases List.mem_singleton.mp h with rfl
    exact hx

/-- Claim C4, amended to what the code does: a system prompt whose estimate
alone exceeds the budget is still included in full at the head of the
context, but a turn whose estimate (on top of the system tokens) exceeds
the budget is excluded from the built context entirely — the soft-budget
exception applies to the system prompt only, not to single turns. -/
theorem C4_amended_soft_budget :
    (∀ (llm : Bool) (turns : List ChatMessage) (s : String) (mt : Option Nat),
      s ≠ "" → ∃ rest, buildMessagesContext llm turns (some s) mt =
        ChatMessage.mk "system" s :: rest) ∧
    (∀ (llm : Bool) (turns : List ChatMessage) (sp : Option String) (mt : Option Nat)
       (t : ChatMessage), t ∈ turns → (∀ m ∈ turns, m.role ≠ "system") →
      effectiveBudget mt < contextTokens (systemEntries sp) + msgTokens t →
      t ∉ buildMessagesContext llm turns sp mt) := by
  constructor
  · intro llm turns s mt hs
    have hse : systemEntries (some s) = [⟨"system", s⟩] := by
      simp [systemEntries, hs]
    unfold buildMessagesContext
    split
    · rw [hse, List.singleton_append,
        compress_with_system llm ⟨"system", s⟩ turns (effectiveBudget mt) rfl]
      exact ⟨_, rfl⟩
    · rw [hse, List.singleton_append]
      exact ⟨_, rfl⟩
  · intro llm turns sp mt t ht hroles hbig
    have hmem : msgTokens t ≤ contextTokens turns := by
      have : msgTokens t ∈ turns.map msgTokens := List.mem_map_of_mem msgTokens ht
      exact List.single_le_sum (fun x _ => Nat.zero_le x) _ this
    have hover : effectiveBudget mt < contextTokens (systemEntries sp ++ turns) := by
      rw [contextTokens_append]
      omega
    rw [(C3_compression_structure llm turns sp mt hroles hover).1]
    intro hin
    rcases List.mem_append.mp hin with hin1 | hin2
    · rcases List.mem_append.mp hin1 with hin3 | hin4
      · exact hroles t ht (systemEntries_role sp t hin3)
      · exact hroles t ht (summaryEntries_role llm turns _ t hin4)
    · have := keptRecent_mem_le (effectiveBudget mt)
        (contextTokens (systemEntries sp)) turns t hin2
      omega

/-- Witness for C4 at a concrete input: with a 2-token system prompt and a
budget of 5, a 30-character (7-token) turn is dropped from the context. -/
theorem C4_amended_soft_budget_witness :
    ChatMessage.mk "user" "012345678901234567890123456789" ∉
      buildMessagesContext true
        [⟨"user", "hey"⟩, ⟨"user", "012345678901234567890123456789"⟩]
        (some "systemstuff") (some 5) :=
  C4_amended_soft_budget.2 true
    [⟨"user", "hey"⟩, ⟨"user", "012345678901234567890123456789"⟩]
    (some "systemstuff") (some 5) ⟨"user", "012345678901234567890123456789"⟩
    (by decide) (by decide) (by decide)

/-- Minimal JSON value model for the wire payloads the adapters read. -/
inductive Json where
  | null
  | bool (b : Bool)
  | num (n : Int)
  | str (s : String)
  | arr (elems : List Json)
  | obj (fields : List (String × Json))
deriving Repr

/-- Key lookup on a JSON object (`data["key"]` on a dict; `none` when the
value is not an object or the key is absent). -/
def Json.lookup (j : Json) (key : String) : Option Json :=
  match j with
  | .obj fields => fields.lookup key
  | _ => none

/-- Python truthiness of a JSON value. -/
def Json.truthy : Json → Bool
  | .null => false
  | .bool b => b
  | .num n => n != 0
  | .str s => s ≠ ""
  | .arr l => !l.isEmpty
  | .obj f => !f.isEmpty

/-- One raw line of a Variant A (line-delimited JSON) response body:
whitespace-only, unparsable, or a parsed JSON object. -/
inductive StreamLine where
  | blank
  | malformed
  | parsed (data : Json)

/-- The fragments one parsed line contributes: the `message.content` string
when present and non-empty (the `if content:` guard of the source). -/
def contentFragment (data : Json) : List String :=
  match data.lookup "message" with
  | some msg =>
    match msg.lookup "content" with
    | some (.str c) => if c ≠ "" then [c] else []
    | some _ => []
    | none => []
  | none => []

/-- Python's `data.get("done", False)` under truthiness. -/
def isDone (data : Json) : Bool :=
  match data.lookup "done" with
  | some v => v.truthy
  | none => false

/-- Embedding of the Variant A branch of `LLMService.stream_response`:
skip blank lines, skip lines that fail to parse, yield each non-empty
`message.content`, and break after the first line whose `done` is truthy
(after yielding that line's own content). -/
def streamVariantA : List StreamLine → List String
  | [] => []
  | .blank :: rest => streamVariantA rest
  | .malformed :: rest => streamVariantA rest
  | .parsed d :: rest =>
      contentFragment d ++ (if isDone d then [] else streamVariantA rest)

/-- The lines the streaming loop actually processes: everything up to and
including the first parsed line whose `done` is truthy. -/
def linesUntilDone : List StreamLine → List StreamLine
  | [] => []
  | .parsed d :: rest =>
      if isDone d then [.parsed d] else .parsed d :: linesUntilDone rest
  | l :: rest => l :: linesUntilDone rest

/-- All content fragments of the well-formed lines of a line list, in input
order. -/
def fragmentsOf (lines : List StreamLine) : List String :=
  (lines.map (fun l =>
    match l with
    | .parsed d => contentFragment d
    | _ => [])).flatten

/-- Claim C5: the Variant A stream adapter yields exactly the non-empty
`message.content` fragments of the well-formed lines up to and including
the first `done` line, in input order, and a malformed line anywhere is
skipped without terminating the stream. -/
theorem C5_variantA_stream :
    (∀ lines : List StreamLine,
      streamVariantA lines = fragmentsOf (linesUntilDone lines)) ∧
    (∀ p s : List StreamLine,
      streamVariantA (p ++ StreamLine.malformed :: s) = streamVariantA (p ++ s)) := by
  constructor
  · intro lines
    induction lines with
    | nil => rfl
    | cons l rest ih =>
        cases l with
        | blank => simpa [streamVariantA, linesUntilDone, fragmentsOf] using ih
        | malformed => simpa [streamVariantA, linesUntilDone, fragmentsOf] using ih
        | parsed d =>
            by_cases hd : isDone d
            · simp [streamVariantA, linesUntilDone, fragmentsOf, hd]
            · simp only [streamVariantA, linesUntilDone, fragmentsOf, if_neg hd]
              simp only [fragmentsOf] at ih
              simp [ih]
  · intro p s
    induction p with
    | nil => rfl
    | cons l rest ih =>
        cases l with
        | blank => simpa [streamVariantA] using ih
        | malformed => simpa [streamVariantA] using ih
        | parsed d =>
            by_cases hd : isDone d
            · simp [streamVariantA, hd]
            · simp [streamVariantA, hd, ih]

/-- Embedding of the Variant B (LM Studio) normalization branch of
`generate_response`: when the blocking result has a truthy `choices`,
rebuild it in the Variant A shape from `choices[0].message.content`;
`none` models the `KeyError`/`TypeError` paths the source does not guard. -/
def normalizeLMStudioBlocking (result : Json) : Option Json :=
  match result.lookup "choices" with
  | some choices =>
    if choices.truthy then
      match choices with
      | .arr (first :: _) =>
        match (first.lookup "message").bind (fun m => m.lookup "content") with
        | some content =>
            some (Json.obj
              [("message", Json.obj [("role", Json.str "assistant"), ("content", content)]),
               ("done", Json.bool true)])
        | none => none
      | _ => none
    else some result
  | none => some result

/-- The Variant A blocking path returns the backend JSON unchanged. -/
def normalizeOllamaBlocking (result : Json) : Option Json :=
  some result

/-- The fields of a normalized blocking result that upstream callers read:
`message.content` and `done`. -/
def normalizedShape (result : Json) : Option Json × Option Json :=
  ((result.lookup "message").bind (fun m => m.lookup "content"), result.lookup "done")

/-- A Variant A blocking success response carrying the given content. -/
def variantABlockingResponse (content : Json) : Json :=
  Json.obj [("message", Json.obj [("content", content)]), ("done", Json.bool true)]

/-- Claim C6: the Variant B blocking adapter rewrites any response with a
non-empty `choices` array into the Variant A shape, so its normalized
shape (content and done) is exactly that of the Variant A blocking path on
the corresponding response, which Variant A returns unchanged. -/
theorem C6_blocking_normalization (j first content : Json) (rest : List Json)
    (h1 : j.lookup "choices" = some (Json.arr (first :: rest)))
    (h2 : (first.lookup "message").bind (fun m => m.lookup "content") = some content) :
    ∃ r, normalizeLMStudioBlocking j = some r ∧
      normalizedShape r = normalizedShape (variantABlockingResponse content) ∧
      normalizeOllamaBlocking (variantABlockingResponse content) =
        some (variantABlockingResponse content) := by
  have htruthy : (Json.arr (first :: rest)).truthy = true := by
    simp [Json.truthy]
  refine ⟨Json.obj
      [("message", Json.obj [("role", Json.str "assistant"), ("content", content)]),
       ("done", Json.bool true)], ?_, ?_, rfl⟩
  · unfold normalizeLMStudioBlocking
    rw [h1]
    simp only [htruthy, if_true]
    rw [h2]
  · simp [normalizedShape, variantABlockingResponse, Json.lookup, List.lookup]

/-- Witness for C6 at the spec's concrete input: the Variant B blocking
response with content "hi" normalizes to the Variant A shape of "hi". -/
theorem C6_blocking_normalization_witness :
    ∃ r, normalizeLMStudioBlocking
        (Json.obj [("choices",
          Json.arr [Json.obj [("message", Json.obj [("content", Json.str "hi")])]])]) =
        some r ∧
      normalizedShape r = normalizedShape (variantABlockingResponse (Json.str "hi")) ∧
      normalizeOllamaBlocking (variantABlockingResponse (Json.str "hi")) =
        some (variantABlockingResponse (Json.str "hi")) :=
  C6_blocking_normalization
    (Json.obj [("choices",
      Json.arr [Json.obj [("message", Json.obj [("content", Json.str "hi")])]])])
    (Json.obj [("message", Json.obj [("content", Json.str "hi")])])
    (Json.str "hi") [] rfl rfl

/-- Python dict assignment on an association list: replace in place when
the key exists (preserving insertion order), append otherwise. -/
def setKey {α : Type} (l : List (String × α)) (k : String) (v : α) :
    List (String × α) :=
  if l.any (fun p => p.1 == k) then
    l.map (fun p => if p.1 == k then (k, v) else p)
  else l ++ [(k, v)]

/-- Python `del d[k]` guarded by `if k in d`. -/
def delKey {α : Type} (l : List (String × α)) (k : String) : List (String × α) :=
  l.filter (fun p => p.1 ≠ k)

/-- One spawned heartbeat task: its id, the client key it pings for, and
whether it has been cancelled or has finished. -/
structure TaskRecord where
  id : Nat
  client : String
  cancelled : Bool
  done : Bool
deriving Repr, DecidableEq

/-- Embedding of `ConnectionManager` state: the `active_connections`,
`connection_health` and `heartbeat_tasks` dicts, plus the pool of every
heartbeat task spawned so far and a fresh-id counter for task identity. -/
structure ConnectionManager where
  active_connections : List (String × Nat)
  connection_health : List (String × Nat)
  heartbeat_tasks : List (String × Nat)
  tasks : List TaskRecord
  next_id : Nat
deriving Repr, DecidableEq

def ConnectionManager.empty : ConnectionManager :=
  { active_connections := [], connection_health := [], heartbeat_tasks := [],
    tasks := [], next_id := 0 }

/-- Embedding of `ConnectionManager.connect`: register the websocket and
health timestamp under the key, spawn a fresh heartbeat task and register
it under the key. A prior registration is overwritten; nothing cancels a
prior task. -/
def ConnectionManager.connect (m : ConnectionManager) (websocket : Nat) (now : Nat)
    (client_id : String) : ConnectionManager :=
  { active_connections := setKey m.active_connections client_id websocket,
    connection_health := setKey m.connection_health client_id now,
    heartbeat_tasks := setKey m.heartbeat_tasks client_id m.next_id,
    tasks := m.tasks ++ [⟨m.next_id, client_id, false, false⟩],
    next_id := m.next_id + 1 }

/-- Embedding of `ConnectionManager.disconnect`: drop the key from all
three dicts and cancel the registered heartbeat task if it is not done. -/
def ConnectionManager.disconnect (m : ConnectionManager) (client_id : String) :
    ConnectionManager :=
  { active_connections := delKey m.active_connections client_id,
    connection_health := delKey m.connection_health client_id,
    heartbeat_tasks := delKey m.heartbeat_tasks client_id,
    tasks :=
      match m.heartbeat_tasks.lookup client_id with
      | some t => m.tasks.map
          (fun r => if r.id = t ∧ r.done = false then { r with cancelled := true } else r)
      | none => m.tasks,
    next_id := m.next_id }

/-- The heartbeat tasks still running (spawned, not cancelled, not done)
for one client key. -/
def runningTasksFor (m : ConnectionManager) (client_id : String) : List TaskRecord :=
  m.tasks.filter (fun r => r.client = client_id ∧ r.cancelled = false ∧ r.done = false)

lemma setKey_keys_nodup {α : Type} (l : List (String × α)) (k : String) (v : α)
    (h : (l.map Prod.fst).Nodup) : ((setKey l k v).map Prod.fst).Nodup := by
  unfold setKey
  split
  · have hkeys : ((l.map (fun p => if p.1 == k then (k, v) else p)).map Prod.fst) =
        l.map Prod.fst := by
      rw [List.map_map]
      apply List.map_congr_left
      intro p _
      by_cases hp : p.1 == k
      · simp only [Function.comp_apply, if_pos hp]
        exact (beq_iff_eq.mp hp).symm
      · simp only [Function.comp_apply, if_neg hp]
    rw [hkeys]
    exact h
  · rw [List.map_append]
    refine List.Nodup.append h (List.nodup_singleton k) ?_
    intro a ha hb
    rw [List.map_singleton, List.mem_singleton] at hb
    obtain ⟨p, hp, hpa⟩ := List.mem_map.mp ha
    have hnone : ¬ l.any (fun p => p.1 == k) = true := by assumption
    rw [List.any_eq_true] at hnone
    push_neg at hnone
    have hpk : p.1 = k := by rw [hpa, hb]
    exact absurd hpk (by simpa using hnone p hp)

/-- Claim C7 as stated is false at a concrete input: connecting twice under
the same key leaves two uncancelled, unfinished heartbeat tasks for that
key — the second `connect` overwrites the registration but never cancels
the first session's heartbeat task. -/
theorem C7_counterexample :
    (runningTasksFor
      ((ConnectionManager.empty.connect 1 0 "user:chat").connect 2 5 "user:chat")
      "user:chat").length = 2 ∧
    ¬ (∀ r ∈ ((ConnectionManager.empty.connect 1 0 "user:chat").connect 2 5
          "user:chat").tasks,
        r.id ≠ 1 → r.cancelled = true) := by
  constructor
  · decide
  · decide

/-- Claim C7, amended to what the code does: `connect` keeps at most one
registered session and one registered heartbeat task per key (dict keys
stay unique), but it does not cancel a previously running heartbeat task
for that key — after a reconnect the old task and the new task are both
running for the same key. -/
theorem C7_amended_reconnect (m : ConnectionManager) (websocket now : Nat)
    (client_id : String) :
    ((m.active_connections.map Prod.fst).Nodup →
      (((m.connect websocket now client_id).active_connections.map Prod.fst)).Nodup) ∧
    ((m.heartbeat_tasks.map Prod.fst).Nodup →
      (((m.connect websocket now client_id).heartbeat_tasks.map Prod.fst)).Nodup) ∧
    ((∀ r ∈ m.tasks, r.id < m.next_id) →
      ∀ r ∈ m.tasks, r.client = client_id → r.cancelled = false → r.done = false →
        r ∈ runningTasksFor (m.connect websocket now client_id) client_id ∧
        TaskRecord.mk m.next_id client_id false false ∈
          runningTasksFor (m.connect websocket now client_id) client_id ∧
        r.id ≠ m.next_id) := by
  refine ⟨?_, ?_, ?_⟩
  · intro h
    exact setKey_keys_nodup m.active_connections client_id websocket h
  · intro h
    exact setKey_keys_nodup m.heartbeat_tasks client_id m.next_id h
  · intro hfresh r hr hcl hcanc hdone
    refine ⟨?_, ?_, ?_⟩
    · apply List.mem_filter.mpr
      refine ⟨?_, by simp [hcl, hcanc, hdone]⟩
      simp only [ConnectionManager.connect, List.mem_append]
      exact Or.inl hr
    · apply List.mem_filter.mpr
      refine ⟨?_, by simp⟩
      simp only [ConnectionManager.connect, List.mem_append]
      exact Or.inr (List.mem_singleton.mpr rfl)
    · exact Nat.ne_of_lt (hfresh r hr)

/-- Witness for C7 at a concrete input: reconnecting key "k" leaves the
first heartbeat task (id 0) running next to the new one (id 1). -/
theorem C7_amended_reconnect_witness :
    TaskRecord.mk 0 "k" false false ∈
        runningTasksFor ((ConnectionManager.empty.connect 1 0 "k").connect 2 5 "k") "k" ∧
      TaskRecord.mk 1 "k" false false ∈
        runningTasksFor ((ConnectionManager.empty.connect 1 0 "k").connect 2 5 "k") "k" ∧
      (0 : Nat) ≠ 1 := by
  have h := (C7_amended_reconnect (ConnectionManager.empty.connect 1 0 "k") 2 5 "k").2.2
    (by decide) ⟨0, "k", false, false⟩ (by decide) rfl rfl rfl
  exact h

/-- One message row of the relational store, as written by the websocket
handler. -/
structure StoredMessage where
  id : Nat
  chat_id : Nat
  role : String
  content : String
  tokens_used : Option Nat
deriving Repr, DecidableEq

/-- One outbound websocket frame of the streaming protocol. -/
inductive Frame where
  | stream_start (message_id : Nat)
  | stream_chunk (message_id : Nat) (content : String)
  | stream_end (message_id : Nat) (content : String) (tokens_used : Nat) (complete : Bool)
  | stream_complete (message_id : Nat) (full_content : String) (final : Bool)
  | stream_error (message_id : Nat) (error : String)
deriving Repr, DecidableEq

/-- What the backend stream did: completed with these fragments, or raised
after yielding a prefix of fragments. -/
inductive StreamOutcome where
  | ok (fragments : List String)
  | fail (sentFragments : List String) (error : String)

/-- The `stream_chunk` frames sent for a fragment list. -/
def emitChunks (msgId : Nat) (frags : List String) : List Frame :=
  frags.map (fun c => Frame.stream_chunk msgId c)

/-- Embedding of the generation section of `websocket_chat` (placeholder
creation through success or failure handling): commit an empty assistant
row, emit `stream_start`, emit one `stream_chunk` per fragment while
accumulating `full_response` and counting `tokens_used`; on completion
update the row and emit `stream_end` (full text, token count,
`complete:true`) then `stream_complete`; on failure emit `stream_error`
and delete the assistant row. Returns the message store and the frames
sent. -/
def handleGeneration (store : List StoredMessage) (chatId msgId : Nat)
    (outcome : StreamOutcome) : List StoredMessage × List Frame :=
  let store1 := store ++ [⟨msgId, chatId, "assistant", "", none⟩]
  match outcome with
  | .ok frags =>
      (store1.map (fun m =>
        if m.id = msgId then
          { m with content := String.join frags, tokens_used := some frags.length }
        else m),
       Frame.stream_start msgId :: emitChunks msgId frags ++
         [Frame.stream_end msgId (String.join frags) frags.length true,
          Frame.stream_complete msgId (String.join frags) true])
  | .fail pfx err =>
      (store1.filter (fun m => m.id ≠ msgId),
       Frame.stream_start msgId :: emitChunks msgId pfx ++
         [Frame.stream_error msgId err])

/-- Selects the content of a `stream_chunk` frame for one message id. -/
def chunkFn (msgId : Nat) : Frame → Option String
  | .stream_chunk m c => if m = msgId then some c else none
  | _ => none

/-- The contents of the `stream_chunk` frames sent for one message id, in
emission order. -/
def chunkContents (frames : List Frame) (msgId : Nat) : List String :=
  frames.filterMap (chunkFn msgId)

lemma chunkContents_emitChunks (msgId : Nat) (frags : List String) :
    chunkContents (emitChunks msgId frags) msgId = frags := by
  induction frags with
  | nil => rfl
  | cons c rest ih =>
      simp only [emitChunks, List.map_cons, chunkContents, List.filterMap_cons] at ih ⊢
      simp [chunkFn, ih]

/-- Claim C9: on a successfully completed streamed generation, the
`stream_end` frame carries `complete:true`, content equal to the
concatenation of all `stream_chunk` contents for the message in emission
order, and `tokens_used` equal to the number of fragments the backend
yielded; and it is the only `stream_end` frame of the exchange. -/
theorem C9_stream_end_payload (store : List StoredMessage) (chatId msgId : Nat)
    (frags : List String) :
    chunkContents (handleGeneration store chatId msgId (.ok frags)).2 msgId = frags ∧
    Frame.stream_end msgId (String.join frags) frags.length true ∈
      (handleGeneration store chatId msgId (.ok frags)).2 ∧
    (∀ s n b, Frame.stream_end msgId s n b ∈
        (handleGeneration store chatId msgId (.ok frags)).2 →
      s = String.join frags ∧ n = frags.length ∧ b = true) := by
  refine ⟨?_, ?_, ?_⟩
  · have hfr : (handleGeneration store chatId msgId (.ok frags)).2 =
        Frame.stream_start msgId :: (emitChunks msgId frags ++
          [Frame.stream_end msgId (String.join frags) frags.length true,
           Frame.stream_complete msgId (String.join frags) true]) := rfl
    rw [hfr]
    have hrest := chunkContents_emitChunks msgId frags
    simp only [chunkContents] at hrest ⊢
    simp [List.filterMap_cons, List.filterMap_append, chunkFn, hrest]
  · simp [handleGeneration]
  · intro s n b hmem
    have h2 : s = String.join frags ∧ n = frags.length ∧ b = true := by
      simpa [handleGeneration, emitChunks] using hmem
    exact h2

/-- Witness for C9 at a concrete input: fragments "He", "llo" produce a
`stream_end` carrying "Hello", 2 tokens and `complete:true`. -/
theorem C9_stream_end_payload_witness :
    Frame.stream_end 7 "Hello" 2 true ∈
      (handleGeneration [⟨3, 1, "user", "hi", none⟩] 1 7 (.ok ["He", "llo"])).2 ∧
    chunkContents (handleGeneration [⟨3, 1, "user", "hi", none⟩] 1 7
        (.ok ["He", "llo"])).2 7 = ["He", "llo"] := by
  have h := C9_stream_end_payload [⟨3, 1, "user", "hi", none⟩] 1 7 ["He", "llo"]
  have h3 := h.2.2 "Hello" 2 true (by decide)
  exact ⟨by simpa using h.2.1, h.1⟩

/-- Claim C10: when the backend stream fails mid-generation, the handler
emits a `stream_error` frame carrying the in-flight message id and the
error, the already-sent `stream_chunk` frames stay in the emitted sequence
unretracted, no `stream_end` is emitted, and the message store ends up
with no assistant record for the failed generation (it is exactly the
store from before the placeholder was created). -/
theorem C10_stream_failure (store : List StoredMessage) (chatId msgId : Nat)
    (pfx : List String) (err : String)
    (hfresh : ∀ m ∈ store, m.id ≠ msgId) :
    (handleGeneration store chatId msgId (.fail pfx err)).1 = store ∧
    (∀ m ∈ (handleGeneration store chatId msgId (.fail pfx err)).1, m.id ≠ msgId) ∧
    Frame.stream_error msgId err ∈ (handleGeneration store chatId msgId (.fail pfx err)).2 ∧
    chunkContents (handleGeneration store chatId msgId (.fail pfx err)).2 msgId = pfx ∧
    (∀ s n b, Frame.stream_end msgId s n b ∉
      (handleGeneration store chatId msgId (.fail pfx err)).2) := by
  have hstore : (handleGeneration store chatId msgId (.fail pfx err)).1 = store := by
    simp only [handleGeneration, List.filter_append]
    have h1 : store.filter (fun m => m.id ≠ msgId) = store :=
      List.filter_eq_self.mpr (fun m hm => by simpa using hfresh m hm)
    have h2 : ([(⟨msgId, chatId, "assistant", "", none⟩ : StoredMessage)].filter
        (fun m => m.id ≠ msgId)) = [] := by
      simp
    rw [h1, h2, List.append_nil]
  refine ⟨hstore, ?_, ?_, ?_, ?_⟩
  · rw [hstore]
    exact hfresh
  · simp [handleGeneration]
  · have hfr : (handleGeneration store chatId msgId (.fail pfx err)).2 =
        Frame.stream_start msgId :: (emitChunks msgId pfx ++
          [Frame.stream_error msgId err]) := rfl
    rw [hfr]
    have hrest := chunkContents_emitChunks msgId pfx
    simp only [chunkContents] at hrest ⊢
    simp [List.filterMap_cons, List.filterMap_append, chunkFn, hrest]
  · intro s n b hmem
    simp [handleGeneration, emitChunks] at hmem

/-- Witness for C10 at a concrete input: a failure after fragment "He"
leaves the store without message 7 and emits the error frame. -/
theorem C10_stream_failure_witness :
    (handleGeneration [⟨3, 1, "user", "hi", none⟩] 1 7 (.fail ["He"] "boom")).1 =
      [⟨3, 1, "user", "hi", none⟩] ∧
    Frame.stream_error 7 "boom" ∈
      (handleGeneration [⟨3, 1, "user", "hi", none⟩] 1 7 (.fail ["He"] "boom")).2 := by
  have h := C10_stream_failure [⟨3, 1, "user", "hi", none⟩] 1 7 ["He"] "boom" (by decide)
  exact ⟨h.1, h.2.2.1⟩

end LocalAIChat
